import Mathlib

/-!
Verification development for the nexuslb inference-serving core.

The definitions below are a shallow embedding of the C++ sources:
  - src/nexus/backend/gpu_executor.cpp  (GPU batch-plan follower)
  - src/ario/rdma.cpp                   (RDMA transport core)
  - src/nexus/dispatcher/model_worker.cpp (dispatch ingress)

C++ standard-library containers are modelled by their documented contracts:
std::vector as List, std::map as an association list, and the std heap
algorithms (std::push_heap / std::pop_heap) by their contract that the heap
front is a maximal element with respect to the comparator.  Machine integers
are modelled as Nat / Int; the programs never rely on wrap-around for the
quantities modelled here.  CHECK / die failures are modelled as explicit
result constructors, and callback invocations as explicit action lists.
-/

namespace Nexus

/-- Fields of BatchPlanProto used by the GPU executor
    (gpu_executor.cpp reads plan_id, model_index, exec_time_ns,
    expected_finish_time_ns). -/
structure BatchPlanProto where
  plan_id : Nat
  model_index : Nat
  exec_time_ns : Int
  expected_finish_time_ns : Int
  deriving DecidableEq

/-- Comparator from gpu_executor.cpp (anonymous namespace): returns true when
    lhs has the larger exec_time_ns, so the std heap algorithms treat the plan
    with the smallest exec_time_ns as the maximal element kept at the front. -/
def OrderBatchPlanProtoByExecTimeDesc (lhs rhs : BatchPlanProto) : Bool :=
  decide (rhs.exec_time_ns < lhs.exec_time_ns)

/-- Selection of a maximal element with respect to a comparator: scans the
    list keeping the current best candidate, replacing it whenever the
    candidate compares less than the next element.  This models the contract
    of the C++ standard heap algorithms (std::push_heap / std::pop_heap are
    standard-library code, not repository code): the element at the heap
    front, which std::pop_heap removes, is a maximal element with respect to
    the comparator.  Returns the selected element and the remaining ones. -/
def selMax (comp : α → α → Bool) : α → List α → α × List α
  | b, [] => (b, [])
  | b, x :: xs =>
    if comp b x then
      let r := selMax comp x xs
      (r.1, b :: r.2)
    else
      let r := selMax comp b xs
      (r.1, x :: r.2)

/-- Pop from the pending-plan heap (std::pop_heap followed by pop_back in
    GpuExecutorPlanFollower::OnTimer), under the std heap contract with the
    comparator OrderBatchPlanProtoByExecTimeDesc: removes a plan whose
    exec_time_ns is minimal. -/
def popHeap (l : List BatchPlanProto) : Option (BatchPlanProto × List BatchPlanProto) :=
  match l with
  | [] => none
  | x :: xs => some (selMax OrderBatchPlanProtoByExecTimeDesc x xs)

/-- Heap front (plans_[0] in GpuExecutorPlanFollower::UpdateTimer), under the
    std heap contract: the plan that popHeap would remove. -/
def heapTop (l : List BatchPlanProto) : Option BatchPlanProto :=
  (popHeap l).map Prod.fst

/-- Repeatedly popping the heap, with explicit fuel (the fuel is the list
    length, so the recursion is structural). -/
def drainAux : Nat → List BatchPlanProto → List BatchPlanProto
  | 0, _ => []
  | _ + 1, [] => []
  | fuel + 1, x :: xs =>
    let r := selMax OrderBatchPlanProtoByExecTimeDesc x xs
    r.1 :: drainAux fuel r.2

/-- The sequence of plans obtained by popping the pending-plan heap until it
    is empty. -/
def drainPlans (l : List BatchPlanProto) : List BatchPlanProto :=
  drainAux l.length l

/-- Model executor handle (ModelExecutor); id distinguishes distinct executor
    objects that may carry the same model_index. -/
structure ModelExecutor where
  model_index : Nat
  id : Nat
  deriving DecidableEq

/-- Subset of ario::ErrorCode used by the follower. -/
inductive ErrorCode where
  | kOk
  | kCancelled
  | kOther
  deriving DecidableEq

/-- State of GpuExecutorPlanFollower: the models_ vector, the plans_ heap
    (as the multiset of stored plans), the deadline currently armed on
    next_timer_ (none when never armed), and the is_executing_ flag. -/
structure FollowerState where
  models : List (Option ModelExecutor)
  plans : List BatchPlanProto
  armedTimeout : Option Int
  is_executing : Bool
  deriving DecidableEq

/-- Observable events of the follower: the external synchronous
    model->ExecuteBatchPlan call (with its wall-clock start time), the two
    LOG(ERROR) paths of OnTimer, and the fatal CHECK on is_executing_. -/
inductive FollowerObs where
  | execute (plan : BatchPlanProto) (start_time : Int)
  | logNoPlan
  | logMissingModel (model_index : Nat)
  | fatalOverlap
  deriving DecidableEq

/-- Result of a CHECK-guarded operation: ok, or the process aborted because a
    CHECK failed. -/
inductive CheckResult (α : Type) where
  | ok (value : α)
  | checkFailed
  deriving DecidableEq

/-- GpuExecutorPlanFollower::UpdateTimer: if the heap is non-empty and the
    front plan's deadline differs from the armed deadline, arm the timer for
    the front plan's deadline (SetTimeout + AsyncWait). -/
def UpdateTimer (s : FollowerState) : FollowerState :=
  match heapTop s.plans with
  | none => s
  | some top =>
    if s.armedTimeout = some top.exec_time_ns then s
    else { s with armedTimeout := some top.exec_time_ns }

/-- GpuExecutorPlanFollower::AddBatchPlan: push_back + push_heap (which keep
    the stored multiset of plans), then UpdateTimer. -/
def AddBatchPlan (s : FollowerState) (p : BatchPlanProto) : FollowerState :=
  UpdateTimer { s with plans := s.plans ++ [p] }

/-- Growth of the models_ vector by resize(model_index + 1): pads with empty
    slots. -/
def resizeModels (models : List (Option ModelExecutor)) (n : Nat) :
    List (Option ModelExecutor) :=
  models ++ List.replicate (n - models.length) none

/-- GpuExecutorPlanFollower::AddModel: grow the table if needed, CHECK the
    slot is empty, install the model. -/
def AddModel (s : FollowerState) (m : ModelExecutor) : CheckResult FollowerState :=
  let models :=
    if s.models.length ≤ m.model_index then resizeModels s.models (m.model_index + 1)
    else s.models
  if (models.getD m.model_index none).isSome then CheckResult.checkFailed
  else CheckResult.ok { s with models := models.set m.model_index (some m) }

/-- GpuExecutorPlanFollower::RemoveModel: CHECK_GT(models_.size(),
    model_index), CHECK(models_[model_index] != nullptr), then clear the
    slot. Note the second CHECK only requires the slot to be non-empty; it
    does not compare the stored model against the argument. -/
def RemoveModel (s : FollowerState) (m : ModelExecutor) : CheckResult FollowerState :=
  if m.model_index < s.models.length then
    if (s.models.getD m.model_index none).isSome then
      CheckResult.ok { s with models := s.models.set m.model_index none }
    else CheckResult.checkFailed
  else CheckResult.checkFailed

/-- GpuExecutorPlanFollower::OnTimer.  Returns the successor state and the
    emitted observable events.  The lookup condition
    models_.size() <= model_index || !models_[model_index] is expressed as
    getD model_index none = none (getD returns the default none exactly when
    the index is out of range or the slot is empty).  The fatal CHECK on
    is_executing_ aborts before the execute call; otherwise the model
    executes synchronously, UpdateTimer runs, and the flag is cleared. -/
def OnTimer (s : FollowerState) (error : ErrorCode) (now : Int) :
    FollowerState × List FollowerObs :=
  if error ≠ ErrorCode.kOk then (s, [])
  else
    match popHeap s.plans with
    | none => (s, [FollowerObs.logNoPlan])
    | some (plan, rest) =>
      let s1 := { s with plans := rest }
      match s1.models.getD plan.model_index none with
      | none => (UpdateTimer s1, [FollowerObs.logMissingModel plan.model_index])
      | some _ =>
        if s1.is_executing then (s1, [FollowerObs.fatalOverlap])
        else
          let s2 := UpdateTimer { s1 with is_executing := true }
          ({ s2 with is_executing := false }, [FollowerObs.execute plan now])

/-- Reachable follower configurations together with the accumulated
    observable events.  AddModel steps require the CHECK to pass (an aborted
    process produces no further events).  Timer callbacks are modelled by the
    executor contract of the spec: a callback delivered with kOk corresponds
    to the currently armed deadline and fires at or after it; a rearm causes
    the superseded callback to be delivered with a non-kOk code, which may
    happen at any time. -/
inductive Reachable : FollowerState → List FollowerObs → Prop where
  | init : Reachable ⟨[], [], none, false⟩ []
  | addModel (s : FollowerState) (obs : List FollowerObs) (m : ModelExecutor)
      (s1 : FollowerState) :
      Reachable s obs → AddModel s m = CheckResult.ok s1 → Reachable s1 obs
  | addPlan (s : FollowerState) (obs : List FollowerObs) (p : BatchPlanProto) :
      Reachable s obs → Reachable (AddBatchPlan s p) obs
  | fireOk (s : FollowerState) (obs : List FollowerObs) (now t : Int) :
      Reachable s obs → s.armedTimeout = some t → t ≤ now →
      Reachable (OnTimer s ErrorCode.kOk now).1
        (obs ++ (OnTimer s ErrorCode.kOk now).2)
  | fireErr (s : FollowerState) (obs : List FollowerObs) (err : ErrorCode)
      (now : Int) :
      err ≠ ErrorCode.kOk → Reachable s obs →
      Reachable (OnTimer s err now).1 (obs ++ (OnTimer s err now).2)

end Nexus

namespace Ario

/-- Kind of a posted work request. The work-request context of the spec
    carries the kind; in rdma.cpp the kind is recovered from the completion
    opcode. -/
inductive WrKind where
  | recv
  | send
  | read
  deriving DecidableEq

/-- Work-request context table entry (rdma.h WorkRequestContext, modelled
    from the spec data model: owned buffer plus operation kind). The buffer
    is none when it has been moved out (a moved-from OwnedMemoryBlock). -/
structure WorkRequestContext where
  kind : WrKind
  buf : Option Nat
  deriving DecidableEq

/-- Remote memory region descriptor received during the handshake. -/
structure RemoteMemoryRegionInfo where
  addr : Nat
  size : Nat
  rkey : Nat
  deriving DecidableEq

/-- Value of remote_mr_ before any MemoryRegion message arrives
    (value-initialized struct). -/
def defaultRemoteMr : RemoteMemoryRegionInfo := ⟨0, 0, 0⟩

/-- Primitive steps performed by Connection operations, in program order:
    context-table insertion, the ibv post verbs, handler callbacks, the
    unknown-opcode log, setting is_connected_, and the fatal die path. -/
inductive ConnAction where
  | insertCtx (wr_id : Nat)
  | ibvPostRecv (wr_id : Nat)
  | ibvPostSend (wr_id : Nat) (length : Nat)
  | ibvPostRead (wr_id : Nat) (remote_addr : Nat) (rkey : Nat) (length : Nat)
  | callbackOnRecv (buf : Option Nat)
  | callbackOnSent (buf : Option Nat)
  | callbackOnRdmaReadComplete (buf : Option Nat)
  | logUnknownOpcode
  | setConnected
  | dieAct
  deriving DecidableEq

/-- Work-completion opcodes dispatched by HandleWorkCompletion. -/
inductive WcOpcode where
  | wcSend
  | wcRdmaRead
  | wcRdmaWrite
  | wcRecv
  deriving DecidableEq

/-- The IBV_WC_RECV bit test wc->opcode & IBV_WC_RECV. -/
def WcOpcode.hasRecvBit : WcOpcode → Bool
  | WcOpcode.wcRecv => true
  | _ => false

/-- Kind of posted work request that a completion opcode reports. -/
def WcOpcode.postedKind : WcOpcode → Option WrKind
  | WcOpcode.wcRecv => some WrKind.recv
  | WcOpcode.wcSend => some WrKind.send
  | WcOpcode.wcRdmaRead => some WrKind.read
  | WcOpcode.wcRdmaWrite => none

/-- Work completion record (the wc fields read by HandleWorkCompletion). -/
structure WorkCompletion where
  wr_id : Nat
  success : Bool
  opcode : WcOpcode
  deriving DecidableEq

/-- Connection state: the monotonic wr_id counter, the work-request context
    table wr_ctx_ (std::map as association list in insertion order; keys are
    unique because the counter is monotonic), the multiset of work requests
    posted to the NIC and not yet completed (NIC-side bookkeeping, used to
    express the outstanding-receives invariant), the is_connected_ flag, the
    remote memory region, and a counter handing out pool blocks. -/
structure ConnState where
  next_wr_id : Nat
  wr_ctx : List (Nat × WorkRequestContext)
  nic_outstanding : List (Nat × WrKind)
  is_connected : Bool
  remote_mr : RemoteMemoryRegionInfo
  nextBuf : Nat
  deriving DecidableEq

/-- Connection state at construction time. -/
def initConn : ConnState := ⟨0, [], [], false, defaultRemoteMr, 0⟩

/-- Connection::PostReceive: take the next wr_id, allocate a pool buffer,
    insert the context entry under the lock, then ibv_post_recv.  The action
    list records the insertion strictly before the post. -/
def PostReceive (s : ConnState) : ConnState × List ConnAction :=
  let w := s.next_wr_id
  let buf := s.nextBuf
  ( { s with
      next_wr_id := w + 1
      nextBuf := buf + 1
      wr_ctx := s.wr_ctx ++ [(w, ⟨WrKind.recv, some buf⟩)]
      nic_outstanding := s.nic_outstanding ++ [(w, WrKind.recv)] },
    [ConnAction.insertCtx w, ConnAction.ibvPostRecv w] )

/-- Connection::AsyncSend: dies when not connected; otherwise takes the next
    wr_id, inserts the context entry for the caller-owned buffer under the
    lock, then ibv_post_send with the message-view total length. -/
def AsyncSend (s : ConnState) (buf : Nat) (total_length : Nat) :
    ConnState × List ConnAction :=
  if s.is_connected = false then (s, [ConnAction.dieAct])
  else
    let w := s.next_wr_id
    ( { s with
        next_wr_id := w + 1
        wr_ctx := s.wr_ctx ++ [(w, ⟨WrKind.send, some buf⟩)]
        nic_outstanding := s.nic_outstanding ++ [(w, WrKind.send)] },
      [ConnAction.insertCtx w, ConnAction.ibvPostSend w total_length] )

/-- Connection::AsyncRead: takes the next wr_id, allocates a pool buffer,
    builds an RDMA_READ work request aimed at remote_mr_.addr + offset with
    remote_mr_.rkey, inserts the context entry under the lock, then
    ibv_post_send.  There is no is_connected_ check. -/
def AsyncRead (s : ConnState) (offset length : Nat) :
    ConnState × List ConnAction :=
  let w := s.next_wr_id
  let buf := s.nextBuf
  ( { s with
      next_wr_id := w + 1
      nextBuf := buf + 1
      wr_ctx := s.wr_ctx ++ [(w, ⟨WrKind.read, some buf⟩)]
      nic_outstanding := s.nic_outstanding ++ [(w, WrKind.read)] },
    [ConnAction.insertCtx w,
     ConnAction.ibvPostRead w (s.remote_mr.addr + offset) s.remote_mr.rkey length] )

/-- Lookup in the wr_ctx_ map. -/
def lookupCtx (l : List (Nat × WorkRequestContext)) (w : Nat) :
    Option WorkRequestContext :=
  match l with
  | [] => none
  | e :: es => if e.1 = w then some e.2 else lookupCtx es w

/-- The effect of std::move(iter->second) on the mapped value: the entry
    stays in the map with its buffer moved out. -/
def moveOutCtx (l : List (Nat × WorkRequestContext)) (w : Nat) :
    List (Nat × WorkRequestContext) :=
  l.map (fun e => if e.1 = w then (e.1, ⟨e.2.kind, none⟩) else e)

/-- Removal of a completed work request from the NIC-side outstanding list
    (the NIC reports a completion at most once per posted wr_id). -/
def removeOutstanding (l : List (Nat × WrKind)) (w : Nat) : List (Nat × WrKind) :=
  match l with
  | [] => []
  | e :: es => if e.1 = w then es else e :: removeOutstanding es w

/-- Connection::HandleWorkCompletion: die on non-success status; die when the
    wr_id has no context entry; otherwise move the buffer out of the entry
    (the entry itself is not erased from the map).  A completion whose opcode
    has the RECV bit first posts a replacement receive and then invokes
    OnRecv; SEND and RDMA_READ completions invoke their handlers; other
    opcodes are logged and the buffer is dropped. -/
def HandleWorkCompletion (s : ConnState) (wc : WorkCompletion) :
    ConnState × List ConnAction :=
  if wc.success = false then (s, [ConnAction.dieAct])
  else
    match lookupCtx s.wr_ctx wc.wr_id with
    | none => (s, [ConnAction.dieAct])
    | some ctx =>
      let s1 := { s with
        wr_ctx := moveOutCtx s.wr_ctx wc.wr_id
        nic_outstanding := removeOutstanding s.nic_outstanding wc.wr_id }
      if wc.opcode.hasRecvBit then
        let r := PostReceive s1
        (r.1, r.2 ++ [ConnAction.callbackOnRecv ctx.buf])
      else
        match wc.opcode with
        | WcOpcode.wcSend => (s1, [ConnAction.callbackOnSent ctx.buf])
        | WcOpcode.wcRdmaRead => (s1, [ConnAction.callbackOnRdmaReadComplete ctx.buf])
        | _ => (s1, [ConnAction.logUnknownOpcode])

/-- The prefill loop in Connection::MarkConnected: post k receives. -/
def postReceiveLoop : Nat → ConnState → ConnState × List ConnAction
  | 0, s => (s, [])
  | n + 1, s =>
    let r := PostReceive s
    let r2 := postReceiveLoop n r.1
    (r2.1, r.2 ++ r2.2)

/-- Connection::MarkConnected, parameterized by kRecvBacklog (declared in
    rdma.h, whose value is not part of the sources): verifies the QP state,
    starts the poller, posts kRecvBacklog receives, and only then sets
    is_connected_. -/
def MarkConnected (kRecvBacklog : Nat) (s : ConnState) :
    ConnState × List ConnAction :=
  let r := postReceiveLoop kRecvBacklog s
  ({ r.1 with is_connected := true }, r.2 ++ [ConnAction.setConnected])

/-- Count of outstanding posted receives held by the NIC. -/
def recvCount (s : ConnState) : Nat :=
  s.nic_outstanding.countP (fun e => e.2 = WrKind.recv)

/-- Test for a receive-post action (used to count the prefilled receives). -/
def isPostRecvAction : ConnAction → Bool
  | ConnAction.ibvPostRecv _ => true
  | _ => false

/-- Reachable connection states for a given kRecvBacklog.  MarkConnected runs
    once at the end of the handshake.  Completions are reported by the NIC
    only for posted, still-outstanding work requests, with the opcode
    matching the posted kind, and each at most once (reliable-connection
    completion semantics).  AsyncSend and AsyncRead may be invoked by the
    application at any time. -/
inductive ReachableConn (kRecvBacklog : Nat) : ConnState → Prop where
  | init : ReachableConn kRecvBacklog initConn
  | markConnected (s : ConnState) :
      ReachableConn kRecvBacklog s → s.is_connected = false →
      ReachableConn kRecvBacklog (MarkConnected kRecvBacklog s).1
  | completion (s : ConnState) (wc : WorkCompletion) (knd : WrKind) :
      ReachableConn kRecvBacklog s → wc.success = true →
      wc.opcode.postedKind = some knd → (wc.wr_id, knd) ∈ s.nic_outstanding →
      ReachableConn kRecvBacklog (HandleWorkCompletion s wc).1
  | asyncSend (s : ConnState) (buf total_length : Nat) :
      ReachableConn kRecvBacklog s →
      ReachableConn kRecvBacklog (AsyncSend s buf total_length).1
  | asyncRead (s : ConnState) (offset length : Nat) :
      ReachableConn kRecvBacklog s →
      ReachableConn kRecvBacklog (AsyncRead s offset length).1

/-- Handshake message types (RdmaConnectorMessage::Type); other covers any
    byte pattern that is neither expected type. -/
inductive HsMsgType where
  | kConnInfo
  | kMemoryRegion
  | other
  deriving DecidableEq

/-- Steps taken by the handshake callbacks: logging, the fatal die path, QP
    transitions, MarkConnected, the OnConnected callback, sending or waiting
    for the MemoryRegion message, storing remote_mr_, the OnError callback,
    and an internal retry.  OnError and retry are never emitted by the
    source; the constructors exist so the absence is statable. -/
inductive HsAction where
  | log
  | dieAct
  | transitRTR
  | transitRTS
  | markConnectedAct
  | onConnectedAct
  | sendMemoryRegionAct
  | recvMemoryRegionAct
  | setRemoteMrAct
  | onErrorAct
  | retryAct
  deriving DecidableEq

/-- The completion handler of the tcp AsyncRead issued by
    Connection::RecvConnInfo: on an I/O error or peer close (err) it logs and
    dies; on a message whose type is not kConnInfo it logs and dies;
    otherwise it transitions the QP to RTR then RTS and continues with the
    server or client side of the memory-region exchange. -/
def RecvConnInfoCallback (err : Bool) (msgtype : HsMsgType) (isServer : Bool) :
    List HsAction :=
  if err then [HsAction.log, HsAction.dieAct]
  else if msgtype ≠ HsMsgType.kConnInfo then [HsAction.log, HsAction.dieAct]
  else
    [HsAction.transitRTR, HsAction.transitRTS] ++
      (if isServer then
        [HsAction.markConnectedAct, HsAction.onConnectedAct,
         HsAction.sendMemoryRegionAct]
      else [HsAction.recvMemoryRegionAct])

/-- The completion handler of the tcp AsyncRead issued by
    Connection::RecvMemoryRegion: on an I/O error or peer close it logs and
    returns; on a message whose type is not kMemoryRegion it logs and
    returns; otherwise it stores remote_mr_, logs it, marks the connection
    connected and invokes OnConnected. -/
def RecvMemoryRegionCallback (err : Bool) (msgtype : HsMsgType) :
    List HsAction :=
  if err then [HsAction.log]
  else if msgtype ≠ HsMsgType.kMemoryRegion then [HsAction.log]
  else
    [HsAction.setRemoteMrAct, HsAction.log, HsAction.markConnectedAct,
     HsAction.onConnectedAct]

/-- The completion handler of the tcp AsyncWrite issued by
    Connection::SendConnInfo (SendMemoryRegion behaves identically): on an
    I/O error it logs and dies, otherwise it logs. -/
def SendHandshakeCallback (err : Bool) : List HsAction :=
  if err then [HsAction.log, HsAction.dieAct] else [HsAction.log]

/-- Peer connection info exchanged over TCP (RdmaConnectorMessage::ConnInfo):
    lid, the 128-bit gid as a number, and qp_num. -/
structure ConnInfo where
  lid : Nat
  gid : Nat
  qp_num : Nat
  deriving DecidableEq

/-- Address-handle attributes built by TransitQueuePairToRTR (ibv_ah_attr
    after memset 0 and the assignments). -/
structure AhAttr where
  port_num : Nat
  dlid : Nat
  is_global : Bool
  grh_dgid : Nat
  grh_hop_limit : Nat
  deriving DecidableEq

/-- Attributes passed to ibv_modify_qp by TransitQueuePairToRTR.  path_mtu
    records the MTU size denoted by the enumerator (IBV_MTU_1024 means an
    MTU of 1024 bytes). -/
structure RtrAttr where
  path_mtu : Nat
  dest_qp_num : Nat
  rq_psn : Nat
  max_dest_rd_atomic : Nat
  min_rnr_timer : Nat
  ah : AhAttr
  deriving DecidableEq

/-- Connection::TransitQueuePairToRTR: zeroed attr, the unconditional field
    assignments (including ah_attr.dlid = msg.lid), then the lid branch:
    non-zero lid means InfiniBand (dlid only), zero lid means RoCE
    (is_global, grh.dgid = msg.gid, grh.hop_limit = 1). -/
def TransitQueuePairToRTR (dev_port : Nat) (msg : ConnInfo) : RtrAttr :=
  let ah0 : AhAttr :=
    { port_num := dev_port, dlid := msg.lid, is_global := false,
      grh_dgid := 0, grh_hop_limit := 0 }
  let ah :=
    if msg.lid ≠ 0 then { ah0 with dlid := msg.lid }
    else { ah0 with is_global := true, grh_dgid := msg.gid, grh_hop_limit := 1 }
  { path_mtu := 1024, dest_qp_num := msg.qp_num, rq_psn := 0,
    max_dest_rd_atomic := 1, min_rnr_timer := 12, ah := ah }

/-- Attributes passed to ibv_modify_qp by TransitQueuePairToRTS. -/
structure RtsAttr where
  timeout : Nat
  retry_cnt : Nat
  rnr_retry : Nat
  max_rd_atomic : Nat
  deriving DecidableEq

/-- Connection::TransitQueuePairToRTS. -/
def TransitQueuePairToRTS : RtsAttr :=
  { timeout := 8, retry_cnt := 7, rnr_retry := 7, max_rd_atomic := 1 }

end Ario

namespace NexusDispatcher

/-- Punch-clock fields written by the ingress (QueryPunchClock). -/
structure QueryClock where
  dispatcher_recv_ns : Int
  dispatcher_sched_ns : Int
  deriving DecidableEq

/-- Fields of DispatchRequest used by ModelWorker::HandleDispatch (the
    query_without_input message is flattened into its fields used here). -/
structure DispatchRequest where
  model_index : Nat
  query_id : Nat
  global_id : Nat
  clock : QueryClock
  deriving DecidableEq

/-- Control status codes; every non-CTRL_OK status is carried as an error
    code. -/
inductive CtrlStatus where
  | ctrlOk
  | ctrlErr (code : Nat)
  deriving DecidableEq

/-- Reply query entry appended by HandleDispatch on failure. -/
structure ReplyQuery where
  query_id : Nat
  clock : QueryClock
  deriving DecidableEq

/-- DispatchReply fields set by HandleDispatch. On success only status is
    set; model_index and query_list stay at their protobuf defaults. -/
structure DispatchReply where
  status : CtrlStatus
  model_index : Nat
  query_list : List ReplyQuery
  deriving DecidableEq

/-- The exception raised by std::vector::at on an out-of-range index. -/
inductive DispatchError where
  | outOfRange
  deriving DecidableEq

/-- ModelWorker::HandleDispatch, parameterized by the entrance type and the
    EnqueueQuery function (MultiThreadRankScheduler::RequestEntrance is
    declared outside these sources, so its enqueue behaviour is a parameter).
    The function stamps dispatcher_recv_ns (taken at message ingress) and
    dispatcher_sched_ns, assigns the issued global id, looks the entrance up
    with model_session_entrance_table_.at (which raises out_of_range when
    model_index is not within the table), enqueues, and fills the reply:
    status always, and model_index plus one echoed query entry only when the
    status is not CTRL_OK. -/
def HandleDispatch {Entrance : Type}
    (table : List Entrance)
    (enqueue : Entrance → DispatchRequest → CtrlStatus)
    (request : DispatchRequest)
    (dispatcher_recv_ns dispatcher_sched_ns : Int)
    (global_id : Nat) : Except DispatchError DispatchReply :=
  let clock : QueryClock := ⟨dispatcher_recv_ns, dispatcher_sched_ns⟩
  let request1 := { request with clock := clock, global_id := global_id }
  match table.get? request.model_index with
  | none => Except.error DispatchError.outOfRange
  | some entrance =>
    let status := enqueue entrance request1
    if status = CtrlStatus.ctrlOk then
      Except.ok { status := status, model_index := 0, query_list := [] }
    else
      Except.ok { status := status, model_index := request1.model_index,
                  query_list := [⟨request1.query_id, clock⟩] }

/-- The kDispatch branch of ModelWorkerRdmaHandler::OnRecv: runs
    HandleDispatch and sends the reply over the same connection exactly when
    reply->status() != CTRL_OK; returns the sent message, none when nothing
    is sent. -/
def OnRecvDispatch {Entrance : Type}
    (table : List Entrance)
    (enqueue : Entrance → DispatchRequest → CtrlStatus)
    (request : DispatchRequest)
    (dispatcher_recv_ns dispatcher_sched_ns : Int)
    (global_id : Nat) : Except DispatchError (Option DispatchReply) :=
  match HandleDispatch table enqueue request dispatcher_recv_ns
      dispatcher_sched_ns global_id with
  | Except.error e => Except.error e
  | Except.ok reply =>
    Except.ok (if reply.status = CtrlStatus.ctrlOk then none else some reply)

end NexusDispatcher

namespace Nexus

theorem updateTimer_models (s : FollowerState) : (UpdateTimer s).models = s.models := by
  unfold UpdateTimer
  cases heapTop s.plans with
  | none => rfl
  | some top =>
    dsimp only
    split <;> rfl

theorem updateTimer_plans (s : FollowerState) : (UpdateTimer s).plans = s.plans := by
  unfold UpdateTimer
  cases heapTop s.plans with
  | none => rfl
  | some top =>
    dsimp only
    split <;> rfl

theorem updateTimer_is_executing (s : FollowerState) :
    (UpdateTimer s).is_executing = s.is_executing := by
  unfold UpdateTimer
  cases heapTop s.plans with
  | none => rfl
  | some top =>
    dsimp only
    split <;> rfl

theorem updateTimer_armed (s : FollowerState) (top : BatchPlanProto)
    (h : heapTop s.plans = some top) :
    (UpdateTimer s).armedTimeout = some top.exec_time_ns := by
  unfold UpdateTimer
  rw [h]
  dsimp only
  split
  case isTrue h2 => exact h2
  case isFalse h2 => rfl

theorem selMax_perm (comp : α → α → Bool) (b : α) (xs : List α) :
    (b :: xs).Perm ((selMax comp b xs).1 :: (selMax comp b xs).2) := by
  induction xs generalizing b with
  | nil => simp [selMax]
  | cons x xs ih =>
    by_cases h : comp b x
    · have hgoal : selMax comp b (x :: xs) =
          ((selMax comp x xs).1, b :: (selMax comp x xs).2) := by
        simp [selMax, h]
      rw [hgoal]
      show (b :: x :: xs).Perm
        ((selMax comp x xs).1 :: b :: (selMax comp x xs).2)
      have s1 : (b :: x :: xs).Perm
          (b :: (selMax comp x xs).1 :: (selMax comp x xs).2) := (ih x).cons b
      have s2 : (b :: (selMax comp x xs).1 :: (selMax comp x xs).2).Perm
          ((selMax comp x xs).1 :: b :: (selMax comp x xs).2) :=
        List.Perm.swap _ _ _
      exact s1.trans s2
    · have hgoal : selMax comp b (x :: xs) =
          ((selMax comp b xs).1, x :: (selMax comp b xs).2) := by
        simp [selMax, h]
      rw [hgoal]
      show (b :: x :: xs).Perm
        ((selMax comp b xs).1 :: x :: (selMax comp b xs).2)
      have s1 : (b :: x :: xs).Perm (x :: b :: xs) := List.Perm.swap _ _ _
      have s2 : (x :: b :: xs).Perm
          (x :: (selMax comp b xs).1 :: (selMax comp b xs).2) := (ih b).cons x
      have s3 : (x :: (selMax comp b xs).1 :: (selMax comp b xs).2).Perm
          ((selMax comp b xs).1 :: x :: (selMax comp b xs).2) :=
        List.Perm.swap _ _ _
      exact (s1.trans s2).trans s3

theorem selMax_length (comp : α → α → Bool) (b : α) (xs : List α) :
    (selMax comp b xs).2.length = xs.length := by
  induction xs generalizing b with
  | nil => simp [selMax]
  | cons x xs ih =>
    by_cases h : comp b x <;> simp [selMax, h, ih]

theorem selMax_min (b : BatchPlanProto) (xs : List BatchPlanProto) :
    (selMax OrderBatchPlanProtoByExecTimeDesc b xs).1.exec_time_ns ≤
        b.exec_time_ns ∧
    ∀ y ∈ xs,
      (selMax OrderBatchPlanProtoByExecTimeDesc b xs).1.exec_time_ns ≤
        y.exec_time_ns := by
  induction xs generalizing b with
  | nil => simp [selMax]
  | cons x xs ih =>
    by_cases h : OrderBatchPlanProtoByExecTimeDesc b x
    · have hx : x.exec_time_ns < b.exec_time_ns := by
        simpa [OrderBatchPlanProtoByExecTimeDesc] using h
      have hgoal : selMax OrderBatchPlanProtoByExecTimeDesc b (x :: xs) =
          ((selMax OrderBatchPlanProtoByExecTimeDesc x xs).1,
           b :: (selMax OrderBatchPlanProtoByExecTimeDesc x xs).2) := by
        simp [selMax, h]
      rw [hgoal]
      obtain ⟨h1, h2⟩ := ih x
      refine ⟨le_trans h1 (le_of_lt hx), ?_⟩
      intro y hy
      rcases List.mem_cons.mp hy with rfl | hy2
      · exact h1
      · exact h2 y hy2
    · have hx : b.exec_time_ns ≤ x.exec_time_ns := by
        have := h
        simp [OrderBatchPlanProtoByExecTimeDesc] at this
        exact this
      have hgoal : selMax OrderBatchPlanProtoByExecTimeDesc b (x :: xs) =
          ((selMax OrderBatchPlanProtoByExecTimeDesc b xs).1,
           x :: (selMax OrderBatchPlanProtoByExecTimeDesc b xs).2) := by
        simp [selMax, h]
      rw [hgoal]
      obtain ⟨h1, h2⟩ := ih b
      refine ⟨h1, ?_⟩
      intro y hy
      rcases List.mem_cons.mp hy with rfl | hy2
      · exact le_trans h1 hx
      · exact h2 y hy2

theorem drainAux_perm_sorted :
    ∀ (n : Nat) (l : List BatchPlanProto), l.length ≤ n →
      (drainAux n l).Perm l ∧
      (drainAux n l).Sorted (fun a b => a.exec_time_ns ≤ b.exec_time_ns) := by
  intro n
  induction n with
  | zero =>
    intro l hl
    have h0 : l = [] := List.eq_nil_of_length_eq_zero (Nat.le_zero.mp hl)
    subst h0
    simp [drainAux]
  | succ n ih =>
    intro l hl
    match l with
    | [] => simp [drainAux]
    | x :: xs =>
      have hstep : drainAux (n + 1) (x :: xs) =
          (selMax OrderBatchPlanProtoByExecTimeDesc x xs).1 ::
            drainAux n (selMax OrderBatchPlanProtoByExecTimeDesc x xs).2 := rfl
      have hlen : (selMax OrderBatchPlanProtoByExecTimeDesc x xs).2.length ≤ n := by
        rw [selMax_length]
        simpa using Nat.succ_le_succ_iff.mp hl
      obtain ⟨hperm, hsorted⟩ := ih _ hlen
      have hperm2 : (drainAux (n + 1) (x :: xs)).Perm (x :: xs) := by
        rw [hstep]
        exact (List.Perm.cons _ hperm).trans (selMax_perm _ x xs).symm
      refine ⟨hperm2, ?_⟩
      rw [hstep]
      rw [List.sorted_cons]
      refine ⟨?_, hsorted⟩
      intro y hy
      have hy2 : y ∈ (selMax OrderBatchPlanProtoByExecTimeDesc x xs).2 :=
        hperm.mem_iff.mp hy
      have hy3 : y ∈ x :: xs :=
        (selMax_perm OrderBatchPlanProtoByExecTimeDesc x xs).mem_iff.mpr
          (List.mem_cons_of_mem _ hy2)
      rcases List.mem_cons.mp hy3 with h5 | hy4
      · rw [h5]
        exact (selMax_min x xs).1
      · exact (selMax_min x xs).2 y hy4

/-- C2: draining the pending-plan heap yields the stored plans as a
    permutation of the multiset pushed by add_batch_plan, in nondecreasing
    exec_time_ns order, independent of insertion order; consequently a plan
    with strictly smaller exec_time_ns is popped (and hence executed)
    strictly earlier. -/
theorem drain_plans_sorted_by_exec_time :
    ∀ (l : List BatchPlanProto),
      (drainPlans l).Perm l ∧
      (drainPlans l).Sorted (fun a b => a.exec_time_ns ≤ b.exec_time_ns) ∧
      (∀ l2, l.Perm l2 → (drainPlans l).Perm (drainPlans l2)) ∧
      (∀ (i j : Fin (drainPlans l).length),
        ((drainPlans l).get i).exec_time_ns <
            ((drainPlans l).get j).exec_time_ns →
        (i : Nat) < (j : Nat)) := by
  intro l
  obtain ⟨hperm, hsorted⟩ := drainAux_perm_sorted l.length l (le_refl _)
  refine ⟨hperm, hsorted, ?_, ?_⟩
  · intro l2 h12
    obtain ⟨hperm2, _⟩ := drainAux_perm_sorted l2.length l2 (le_refl _)
    exact (hperm.trans h12).trans hperm2.symm
  · intro i j hij
    by_contra hc
    have hji : j ≤ i := le_of_not_lt (fun h2 => hc h2)
    rcases Fin.eq_or_lt_of_le hji with rfl | hlt
    · exact lt_irrefl _ hij
    · have := hsorted.rel_get_of_lt hlt
      exact absurd hij (not_lt_of_le this)

/-- Witness for drain_plans_sorted_by_exec_time: plans inserted with
    exec_time_ns 300, 100, 200 drain in the order 100, 200, 300, and the
    strict comparison at positions 0 and 2 yields 0 smaller than 2. -/
theorem drain_plans_sorted_by_exec_time_witness :
    (drainPlans [⟨1, 0, 300, 0⟩, ⟨2, 0, 100, 0⟩, ⟨3, 0, 200, 0⟩]).Perm
        [⟨1, 0, 300, 0⟩, ⟨2, 0, 100, 0⟩, ⟨3, 0, 200, 0⟩] ∧
    drainPlans [⟨1, 0, 300, 0⟩, ⟨2, 0, 100, 0⟩, ⟨3, 0, 200, 0⟩] =
      [⟨2, 0, 100, 0⟩, ⟨3, 0, 200, 0⟩, ⟨1, 0, 300, 0⟩] ∧
    (0 : Nat) < 2 := by
  refine
    ⟨(drain_plans_sorted_by_exec_time
        [⟨1, 0, 300, 0⟩, ⟨2, 0, 100, 0⟩, ⟨3, 0, 200, 0⟩]).1, by decide, ?_⟩
  exact
    (drain_plans_sorted_by_exec_time
        [⟨1, 0, 300, 0⟩, ⟨2, 0, 100, 0⟩, ⟨3, 0, 200, 0⟩]).2.2.2
      ⟨0, by decide⟩ ⟨2, by decide⟩ (by decide)

/-- C8 counterexample: RemoveModel does not assert that the slot holds the
    model being removed.  With a table whose slot 0 holds executor id 1,
    removing the distinct executor id 2 (same model_index) passes both
    CHECKs and clears the slot instead of aborting. -/
theorem remove_model_clears_mismatched_slot :
    RemoveModel ⟨[some ⟨0, 1⟩], [], none, false⟩ ⟨0, 2⟩ =
      CheckResult.ok ⟨[none], [], none, false⟩ ∧
    some (⟨0, 1⟩ : ModelExecutor) ≠ some (⟨0, 2⟩ : ModelExecutor) := by
  decide

/-- C8 amended: remove_model(m), under the lock, asserts that the table is
    long enough and that the slot at m's model_index is non-empty (any
    installed model passes, not only m itself), then clears that slot; all
    other slots and the rest of the follower state are unchanged. -/
theorem remove_model_checks_and_clears :
    ∀ (s : FollowerState) (m : ModelExecutor),
      (∀ s1, RemoveModel s m = CheckResult.ok s1 →
        (s.models.getD m.model_index none).isSome = true ∧
        s1.models.getD m.model_index none = none ∧
        (∀ j, j ≠ m.model_index → s1.models.getD j none = s.models.getD j none) ∧
        s1.plans = s.plans ∧ s1.armedTimeout = s.armedTimeout ∧
        s1.is_executing = s.is_executing) ∧
      (RemoveModel s m = CheckResult.checkFailed ↔
        ¬(m.model_index < s.models.length ∧
          (s.models.getD m.model_index none).isSome = true)) := by
  intro s m
  constructor
  · intro s1 h1
    unfold RemoveModel at h1
    split at h1
    case isTrue hlen =>
      split at h1
      case isTrue hsome =>
        have h2 : { s with models := s.models.set m.model_index none } = s1 := by
          injection h1
        subst h2
        refine ⟨hsome, ?_, ?_, rfl, rfl, rfl⟩
        · simp [List.getD_eq_getElem?_getD, List.getElem?_set_self hlen]
        · intro j hj
          simp [List.getD_eq_getElem?_getD, List.getElem?_set_ne (Ne.symm hj)]
      case isFalse hsome => cases h1
    case isFalse hlen => cases h1
  · constructor
    · intro hfail hc
      unfold RemoveModel at hfail
      rw [if_pos hc.1, if_pos hc.2] at hfail
      cases hfail
    · intro hc
      unfold RemoveModel
      split
      case isTrue hlen =>
        split
        case isTrue hsome => exact absurd ⟨hlen, hsome⟩ hc
        case isFalse hsome => rfl
      case isFalse hlen => rfl

/-- Witness for remove_model_checks_and_clears: removing the executor at
    slot 0 of a two-slot table clears slot 0 only. -/
theorem remove_model_checks_and_clears_witness :
    (([some ⟨0, 3⟩, some ⟨1, 4⟩] : List (Option ModelExecutor)).getD 0 none).isSome
        = true ∧
    (([none, some ⟨1, 4⟩] : List (Option ModelExecutor)).getD 0 none = none) ∧
    (([none, some ⟨1, 4⟩] : List (Option ModelExecutor)).getD 1 none =
      ([some ⟨0, 3⟩, some ⟨1, 4⟩] : List (Option ModelExecutor)).getD 1 none) := by
  have h :=
    (remove_model_checks_and_clears ⟨[some ⟨0, 3⟩, some ⟨1, 4⟩], [], none, false⟩
        ⟨0, 3⟩).1
      ⟨[none, some ⟨1, 4⟩], [], none, false⟩ (by decide)
  exact ⟨h.1, h.2.1, h.2.2.1 1 (by decide)⟩

theorem models_getD_eq (models : List (Option ModelExecutor)) (i : Nat) :
    models.getD i none = models[i]?.getD none := by
  simp [List.getD_eq_getElem?_getD]

theorem onTimer_err_eq (s : FollowerState) (err : ErrorCode) (now : Int)
    (h : err ≠ ErrorCode.kOk) : OnTimer s err now = (s, []) := by
  simp [OnTimer, h]

theorem onTimer_empty_eq (s : FollowerState) (now : Int)
    (h : popHeap s.plans = none) :
    OnTimer s ErrorCode.kOk now = (s, [FollowerObs.logNoPlan]) := by
  simp [OnTimer, h]

theorem onTimer_missing_eq (s : FollowerState) (now : Int)
    (plan : BatchPlanProto) (rest : List BatchPlanProto)
    (hpop : popHeap s.plans = some (plan, rest))
    (hm : s.models.getD plan.model_index none = none) :
    OnTimer s ErrorCode.kOk now =
      (UpdateTimer { s with plans := rest },
       [FollowerObs.logMissingModel plan.model_index]) := by
  rw [models_getD_eq] at hm
  simp [OnTimer, hpop, hm]

theorem onTimer_overlap_eq (s : FollowerState) (now : Int)
    (plan : BatchPlanProto) (rest : List BatchPlanProto) (m : ModelExecutor)
    (hpop : popHeap s.plans = some (plan, rest))
    (hm : s.models.getD plan.model_index none = some m)
    (hex : s.is_executing = true) :
    OnTimer s ErrorCode.kOk now =
      ({ s with plans := rest }, [FollowerObs.fatalOverlap]) := by
  rw [models_getD_eq] at hm
  simp [OnTimer, hpop, hm, hex]

theorem onTimer_execute_eq (s : FollowerState) (now : Int)
    (plan : BatchPlanProto) (rest : List BatchPlanProto) (m : ModelExecutor)
    (hpop : popHeap s.plans = some (plan, rest))
    (hm : s.models.getD plan.model_index none = some m)
    (hex : s.is_executing = false) :
    OnTimer s ErrorCode.kOk now =
      ({ UpdateTimer { s with plans := rest, is_executing := true } with
          is_executing := false },
       [FollowerObs.execute plan now]) := by
  rw [models_getD_eq] at hm
  simp [OnTimer, hpop, hm, hex]

theorem addModel_ok_fields (s : FollowerState) (m : ModelExecutor)
    (s1 : FollowerState) (h : AddModel s m = CheckResult.ok s1) :
    s1.plans = s.plans ∧ s1.armedTimeout = s.armedTimeout ∧
    s1.is_executing = s.is_executing := by
  simp only [AddModel] at h
  split at h <;> split at h <;> cases h <;> exact ⟨rfl, rfl, rfl⟩

/-- Every reachable follower state has the is_executing flag clear (the flag
    is set and cleared within one timer callback), and whenever plans are
    pending the armed deadline equals the heap front's exec_time_ns. -/
theorem reachable_inv :
    ∀ (s : FollowerState) (obs : List FollowerObs), Reachable s obs →
      s.is_executing = false ∧
      (∀ top rest, popHeap s.plans = some (top, rest) →
        s.armedTimeout = some top.exec_time_ns) := by
  intro s obs h
  induction h with
  | init =>
    refine ⟨rfl, ?_⟩
    intro top rest h2
    cases h2
  | addModel s obs m s1 hr hadd ih =>
    obtain ⟨hplans, harm, hex⟩ := addModel_ok_fields s m s1 hadd
    obtain ⟨ih1, ih2⟩ := ih
    refine ⟨hex.trans ih1, ?_⟩
    intro top rest h2
    rw [hplans] at h2
    rw [harm]
    exact ih2 top rest h2
  | addPlan s obs p hr ih =>
    obtain ⟨ih1, ih2⟩ := ih
    constructor
    · rw [AddBatchPlan, updateTimer_is_executing]
      exact ih1
    · intro top rest h2
      rw [AddBatchPlan, updateTimer_plans] at h2
      rw [AddBatchPlan]
      exact updateTimer_armed _ top (by simp [heapTop, h2])
  | fireOk s obs now t hr harm hle ih =>
    obtain ⟨ih1, ih2⟩ := ih
    rcases hpop : popHeap s.plans with _ | ⟨plan, rest⟩
    · rw [onTimer_empty_eq s now hpop]
      refine ⟨ih1, ?_⟩
      intro top rest2 h2
      rw [hpop] at h2
      cases h2
    · rcases hm : s.models.getD plan.model_index none with _ | m
      · rw [onTimer_missing_eq s now plan rest hpop hm]
        constructor
        · rw [updateTimer_is_executing]
          exact ih1
        · intro top rest2 h2
          rw [updateTimer_plans] at h2
          exact updateTimer_armed _ top (by simp [heapTop, h2])
      · rw [onTimer_execute_eq s now plan rest m hpop hm ih1]
        refine ⟨rfl, ?_⟩
        intro top rest2 h2
        dsimp only at h2 ⊢
        rw [updateTimer_plans] at h2
        exact updateTimer_armed _ top (by simp [heapTop, h2])
  | fireErr s obs err now hne hr ih =>
    rw [onTimer_err_eq s err now hne]
    exact ih

/-- Every execute observation in a reachable trace starts at or after the
    plan's exec_time_ns deadline. -/
theorem reachable_execute_deadline :
    ∀ (s : FollowerState) (obs : List FollowerObs), Reachable s obs →
      ∀ p t, FollowerObs.execute p t ∈ obs → p.exec_time_ns ≤ t := by
  intro s obs h
  induction h with
  | init =>
    intro p t h2
    cases h2
  | addModel s obs m s1 hr hadd ih => exact ih
  | addPlan s obs p hr ih => exact ih
  | fireOk s obs now t hr harm hle ih =>
    intro p tt hmem
    rw [List.mem_append] at hmem
    rcases hmem with h1 | h2
    · exact ih p tt h1
    · obtain ⟨hflag, harmtop⟩ := reachable_inv s obs hr
      rcases hpop : popHeap s.plans with _ | ⟨plan, rest⟩
      · rw [onTimer_empty_eq s now hpop] at h2
        simp at h2
      · rcases hm : s.models.getD plan.model_index none with _ | m
        · rw [onTimer_missing_eq s now plan rest hpop hm] at h2
          simp at h2
        · rw [onTimer_execute_eq s now plan rest m hpop hm hflag] at h2
          simp at h2
          obtain ⟨hp, ht⟩ := h2
          subst hp
          subst ht
          have h3 := harmtop p rest hpop
          rw [harm] at h3
          have h4 : p.exec_time_ns = t := by
            injection h3.symm
          rw [h4]
          exact hle
  | fireErr s obs err now hne hr ih =>
    intro p tt hmem
    rw [onTimer_err_eq s err now hne] at hmem
    simp at hmem
    exact ih p tt hmem

/-- C1: in every reachable follower trace, each execute call starts no
    earlier than its plan's exec_time_ns (timer callbacks fire at or after
    the armed deadline, which tracks the heap front); executes never overlap
    because an execute is only reached with the is_executing flag clear, and
    a timer callback that finds the flag already set aborts via the fatal
    CHECK before calling execute. -/
theorem follower_execute_after_deadline_and_overlap_guard :
    (∀ (s : FollowerState) (obs : List FollowerObs), Reachable s obs →
      ∀ p t, FollowerObs.execute p t ∈ obs → p.exec_time_ns ≤ t) ∧
    (∀ (s : FollowerState) (err : ErrorCode) (now : Int)
      (p : BatchPlanProto) (t : Int),
      FollowerObs.execute p t ∈ (OnTimer s err now).2 →
      s.is_executing = false) ∧
    (∀ (s : FollowerState) (now : Int) (plan : BatchPlanProto)
      (rest : List BatchPlanProto) (m : ModelExecutor),
      s.is_executing = true → popHeap s.plans = some (plan, rest) →
      s.models.getD plan.model_index none = some m →
      (OnTimer s ErrorCode.kOk now).2 = [FollowerObs.fatalOverlap]) := by
  refine ⟨reachable_execute_deadline, ?_, ?_⟩
  · intro s err now p t hmem
    by_cases he : err = ErrorCode.kOk
    · subst he
      rcases hpop : popHeap s.plans with _ | ⟨plan, rest⟩
      · rw [onTimer_empty_eq s now hpop] at hmem
        simp at hmem
      · rcases hm : s.models.getD plan.model_index none with _ | m
        · rw [onTimer_missing_eq s now plan rest hpop hm] at hmem
          simp at hmem
        · by_cases hex : s.is_executing = true
          · rw [onTimer_overlap_eq s now plan rest m hpop hm hex] at hmem
            simp at hmem
          · simpa using hex
    · rw [onTimer_err_eq s err now he] at hmem
      simp at hmem
  · intro s now plan rest m hex hpop hm
    rw [onTimer_overlap_eq s now plan rest m hpop hm hex]

/-- Witness for follower_execute_after_deadline_and_overlap_guard: a plan
    with deadline 5 executed by a timer fire at time 7 satisfies 5 does not
    exceed 7, and a timer fire that finds the is_executing flag set emits
    only the fatal overlap check. -/
theorem follower_execute_after_deadline_witness :
    (⟨1, 0, 5, 6⟩ : BatchPlanProto).exec_time_ns ≤ 7 ∧
    (OnTimer ⟨[some ⟨0, 0⟩], [⟨1, 0, 5, 6⟩], some 5, true⟩
        ErrorCode.kOk 7).2 = [FollowerObs.fatalOverlap] := by
  constructor
  · have h0 : Reachable ⟨[], [], none, false⟩ [] := Reachable.init
    have h1 : Reachable ⟨[some ⟨0, 0⟩], [], none, false⟩ [] :=
      Reachable.addModel _ _ ⟨0, 0⟩ _ h0 (by decide)
    have h2 : Reachable (AddBatchPlan ⟨[some ⟨0, 0⟩], [], none, false⟩
        ⟨1, 0, 5, 6⟩) [] := Reachable.addPlan _ _ _ h1
    have heq : AddBatchPlan ⟨[some ⟨0, 0⟩], [], none, false⟩ ⟨1, 0, 5, 6⟩ =
        ⟨[some ⟨0, 0⟩], [⟨1, 0, 5, 6⟩], some 5, false⟩ := by decide
    rw [heq] at h2
    have h3 := Reachable.fireOk _ _ 7 5 h2 rfl (by decide)
    exact follower_execute_after_deadline_and_overlap_guard.1 _ _ h3
      ⟨1, 0, 5, 6⟩ 7 (by decide)
  · exact follower_execute_after_deadline_and_overlap_guard.2.2
      ⟨[some ⟨0, 0⟩], [⟨1, 0, 5, 6⟩], some 5, true⟩ 7 ⟨1, 0, 5, 6⟩ [] ⟨0, 0⟩
      rfl rfl rfl

/-- C10: when the timer fires and the popped plan's model_index has no
    installed model, the plan has already been removed from the heap and is
    discarded: the resulting plans are exactly the remaining ones, no
    execute is emitted, the miss is logged, the models table is unchanged,
    and the armed deadline equals the remaining heap top's exec_time_ns
    whenever the heap is non-empty. -/
theorem on_timer_missing_model_discards_plan :
    ∀ (s : FollowerState) (now : Int) (plan : BatchPlanProto)
      (rest : List BatchPlanProto),
      popHeap s.plans = some (plan, rest) →
      s.models.getD plan.model_index none = none →
      (OnTimer s ErrorCode.kOk now).1.models = s.models ∧
      (OnTimer s ErrorCode.kOk now).1.plans = rest ∧
      (OnTimer s ErrorCode.kOk now).2 =
        [FollowerObs.logMissingModel plan.model_index] ∧
      (∀ p t, FollowerObs.execute p t ∉ (OnTimer s ErrorCode.kOk now).2) ∧
      (∀ top rest2, popHeap rest = some (top, rest2) →
        (OnTimer s ErrorCode.kOk now).1.armedTimeout = some top.exec_time_ns) := by
  intro s now plan rest hpop hmodel
  have honr : OnTimer s ErrorCode.kOk now =
      (UpdateTimer { s with plans := rest },
       [FollowerObs.logMissingModel plan.model_index]) := by
    unfold OnTimer
    have hmodel2 : s.models[plan.model_index]?.getD none = none := by
      simpa [List.getD_eq_getElem?_getD] using hmodel
    simp [hpop, hmodel2]
  rw [honr]
  refine ⟨updateTimer_models _, ?_, rfl, by simp, ?_⟩
  · rw [updateTimer_plans]
  · intro top rest2 hpop2
    apply updateTimer_armed
    show heapTop rest = some top
    simp [heapTop, hpop2]

/-- Witness for on_timer_missing_model_discards_plan: a single pending plan
    whose model_index 0 has no installed model is popped and discarded. -/
theorem on_timer_missing_model_discards_plan_witness :
    (OnTimer ⟨[], [⟨1, 0, 5, 6⟩], none, false⟩ ErrorCode.kOk 9).1.plans = [] ∧
    (OnTimer ⟨[], [⟨1, 0, 5, 6⟩], none, false⟩ ErrorCode.kOk 9).2 =
      [FollowerObs.logMissingModel 0] := by
  have h :=
    on_timer_missing_model_discards_plan ⟨[], [⟨1, 0, 5, 6⟩], none, false⟩ 9
      ⟨1, 0, 5, 6⟩ [] rfl rfl
  exact ⟨h.2.1, h.2.2.1⟩

end Nexus

namespace Ario

/-- C7: the RTR transition sets path MTU 1024, rq_psn 0, max_dest_rd_atomic 1,
    min_rnr_timer 12 and dest_qp_num from the peer, picks the RoCE address
    path (is_global, grh.dgid = peer gid, hop_limit 1) exactly when the
    peer lid is zero and the InfiniBand path (dlid = peer lid) otherwise;
    the RTS transition sets timeout 8, retry_cnt 7, rnr_retry 7,
    max_rd_atomic 1. -/
theorem qp_rtr_rts_attribute_values :
    ∀ (dev_port : Nat) (msg : ConnInfo),
      (TransitQueuePairToRTR dev_port msg).path_mtu = 1024 ∧
      (TransitQueuePairToRTR dev_port msg).rq_psn = 0 ∧
      (TransitQueuePairToRTR dev_port msg).max_dest_rd_atomic = 1 ∧
      (TransitQueuePairToRTR dev_port msg).min_rnr_timer = 12 ∧
      (TransitQueuePairToRTR dev_port msg).dest_qp_num = msg.qp_num ∧
      (TransitQueuePairToRTR dev_port msg).ah.dlid = msg.lid ∧
      (TransitQueuePairToRTR dev_port msg).ah.is_global = decide (msg.lid = 0) ∧
      (TransitQueuePairToRTR dev_port msg).ah.grh_dgid =
        (if msg.lid = 0 then msg.gid else 0) ∧
      (TransitQueuePairToRTR dev_port msg).ah.grh_hop_limit =
        (if msg.lid = 0 then 1 else 0) ∧
      TransitQueuePairToRTS.timeout = 8 ∧
      TransitQueuePairToRTS.retry_cnt = 7 ∧
      TransitQueuePairToRTS.rnr_retry = 7 ∧
      TransitQueuePairToRTS.max_rd_atomic = 1 := by
  intro dev_port msg
  by_cases h : msg.lid = 0 <;>
    simp [TransitQueuePairToRTR, TransitQueuePairToRTS, h]

/-- C9: AsyncRead enforces no connectedness precondition: its emitted steps
    are the context insertion and the RDMA_READ post aimed at the current
    (possibly default-initialized) remote memory region, with no die path,
    for every state including unconnected ones; AsyncSend by contrast dies
    when is_connected_ is false. -/
theorem async_read_no_connected_check :
    ∀ (s : ConnState) (buf total_length offset length : Nat),
      (s.is_connected = false →
        AsyncSend s buf total_length = (s, [ConnAction.dieAct])) ∧
      (AsyncRead s offset length).2 =
        [ConnAction.insertCtx s.next_wr_id,
         ConnAction.ibvPostRead s.next_wr_id (s.remote_mr.addr + offset)
           s.remote_mr.rkey length] ∧
      ConnAction.dieAct ∉ (AsyncRead s offset length).2 := by
  intro s buf total_length offset length
  refine ⟨fun h => ?_, rfl, by simp [AsyncRead]⟩
  simp [AsyncSend, h]

/-- Witness for async_read_no_connected_check at the freshly constructed
    (unconnected) connection state. -/
theorem async_read_no_connected_check_witness :
    AsyncSend initConn 0 0 = (initConn, [ConnAction.dieAct]) ∧
    (AsyncRead initConn 0 16).2 =
      [ConnAction.insertCtx 0, ConnAction.ibvPostRead 0 0 0 16] := by
  refine ⟨(async_read_no_connected_check initConn 0 0 0 16).1 rfl, ?_⟩
  have h := (async_read_no_connected_check initConn 0 0 0 16).2.1
  simpa using h

/-- C5: after posting one receive (wr_id 0) and observing its successful
    RECV completion, the context table still contains an entry for wr_id 0,
    holding a moved-from buffer, and has grown by the replacement receive:
    HandleWorkCompletion moves the buffer out of the entry but never erases
    the entry. -/
theorem completion_leaves_context_entry :
    lookupCtx
        (HandleWorkCompletion (PostReceive initConn).1
          ⟨0, true, WcOpcode.wcRecv⟩).1.wr_ctx 0 =
      some ⟨WrKind.recv, none⟩ ∧
    (HandleWorkCompletion (PostReceive initConn).1
        ⟨0, true, WcOpcode.wcRecv⟩).1.wr_ctx.length = 2 := by
  decide

/-- C4 counterexample: a handshake message of the wrong type at the
    MemoryRegion stage is neither fatal nor surfaced through on_error: the
    callback only logs and returns. -/
theorem recv_memory_region_wrong_type_silent :
    RecvMemoryRegionCallback false HsMsgType.kConnInfo = [HsAction.log] ∧
    HsAction.dieAct ∉ [HsAction.log] ∧
    HsAction.onErrorAct ∉ [HsAction.log] := by
  decide

/-- C4 amended: ConnInfo-stage handshake errors (TCP I/O failure, peer
    close, wrong message type) and handshake-send errors abort the process
    via die; MemoryRegion-stage errors only log and silently stop the
    handshake; no handshake callback ever invokes on_error or retries
    internally. -/
theorem handshake_error_behaviour :
    ∀ (err : Bool) (t : HsMsgType) (isServer : Bool),
      (err = true ∨ t ≠ HsMsgType.kConnInfo →
        RecvConnInfoCallback err t isServer = [HsAction.log, HsAction.dieAct]) ∧
      (err = true ∨ t ≠ HsMsgType.kMemoryRegion →
        RecvMemoryRegionCallback err t = [HsAction.log]) ∧
      (err = true → SendHandshakeCallback err = [HsAction.log, HsAction.dieAct]) ∧
      HsAction.onErrorAct ∉ RecvConnInfoCallback err t isServer ∧
      HsAction.onErrorAct ∉ RecvMemoryRegionCallback err t ∧
      HsAction.onErrorAct ∉ SendHandshakeCallback err ∧
      HsAction.retryAct ∉ RecvConnInfoCallback err t isServer ∧
      HsAction.retryAct ∉ RecvMemoryRegionCallback err t ∧
      HsAction.retryAct ∉ SendHandshakeCallback err := by
  intro err t isServer
  cases err <;> cases t <;> cases isServer <;> decide

/-- Witness for handshake_error_behaviour: a TCP error at the ConnInfo stage
    dies; a wrong-type message at the MemoryRegion stage only logs. -/
theorem handshake_error_behaviour_witness :
    RecvConnInfoCallback true HsMsgType.kConnInfo false =
      [HsAction.log, HsAction.dieAct] ∧
    RecvMemoryRegionCallback false HsMsgType.other = [HsAction.log] :=
  ⟨(handshake_error_behaviour true HsMsgType.kConnInfo false).1 (Or.inl rfl),
   (handshake_error_behaviour false HsMsgType.other false).2.1
     (Or.inr (by decide))⟩

theorem removeOutstanding_sublist (l : List (Nat × WrKind)) (w : Nat) :
    (removeOutstanding l w).Sublist l := by
  induction l with
  | nil => simp [removeOutstanding]
  | cons e es ih =>
    by_cases h : e.1 = w
    · simp only [removeOutstanding, if_pos h]
      exact List.sublist_cons_self e es
    · simp only [removeOutstanding, if_neg h]
      exact ih.cons₂ e

theorem removeOutstanding_countP (l : List (Nat × WrKind)) (w : Nat)
    (knd : WrKind) (hnd : (l.map Prod.fst).Nodup) (hmem : (w, knd) ∈ l) :
    (removeOutstanding l w).countP (fun e => e.2 = WrKind.recv) +
        (if knd = WrKind.recv then 1 else 0) =
      l.countP (fun e => e.2 = WrKind.recv) := by
  induction l with
  | nil => cases hmem
  | cons e es ih =>
    rw [List.map_cons, List.nodup_cons] at hnd
    by_cases hw : e.1 = w
    · have he : e = (w, knd) := by
        rcases List.mem_cons.mp hmem with h1 | h2
        · exact h1.symm
        · exfalso
          apply hnd.1
          rw [hw]
          exact List.mem_map.mpr ⟨(w, knd), h2, rfl⟩
      subst he
      simp only [removeOutstanding, if_pos hw, List.countP_cons]
      simp
    · have hmem2 : (w, knd) ∈ es := by
        rcases List.mem_cons.mp hmem with h1 | h2
        · exfalso
          apply hw
          rw [← h1]
        · exact h2
      have h3 := ih hnd.2 hmem2
      simp only [removeOutstanding, if_neg hw, List.countP_cons]
      omega

theorem nic_append_nodup_bound (nic : List (Nat × WrKind)) (nxt : Nat)
    (knd : WrKind) (hnd : (nic.map Prod.fst).Nodup)
    (hbd : ∀ e ∈ nic, e.1 < nxt) :
    (((nic ++ [(nxt, knd)]).map Prod.fst).Nodup ∧
      ∀ e ∈ nic ++ [(nxt, knd)], e.1 < nxt + 1) := by
  constructor
  · rw [List.map_append]
    refine List.Nodup.append hnd (by simp) ?_
    intro a ha hb
    simp at hb
    subst hb
    obtain ⟨e, he, hea⟩ := List.mem_map.mp ha
    have := hbd e he
    omega
  · intro e he
    rcases List.mem_append.mp he with h1 | h2
    · exact Nat.lt_succ_of_lt (hbd e h1)
    · simp at h2
      rw [h2]
      exact Nat.lt_succ_self nxt

theorem postReceive_recvCount (s : ConnState) :
    recvCount (PostReceive s).1 = recvCount s + 1 := by
  simp [recvCount, PostReceive, List.countP_append]

theorem postReceiveLoop_state (n : Nat) :
    ∀ s : ConnState,
      (postReceiveLoop n s).1.is_connected = s.is_connected ∧
      recvCount (postReceiveLoop n s).1 = recvCount s + n ∧
      ((s.nic_outstanding.map Prod.fst).Nodup →
        (∀ e ∈ s.nic_outstanding, e.1 < s.next_wr_id) →
        (((postReceiveLoop n s).1.nic_outstanding.map Prod.fst).Nodup ∧
          ∀ e ∈ (postReceiveLoop n s).1.nic_outstanding,
            e.1 < (postReceiveLoop n s).1.next_wr_id)) := by
  induction n with
  | zero =>
    intro s
    exact ⟨rfl, rfl, fun h1 h2 => ⟨h1, h2⟩⟩
  | succ n ih =>
    intro s
    obtain ⟨ih1, ih2, ih3⟩ := ih (PostReceive s).1
    have hstep : postReceiveLoop (n + 1) s =
        ((postReceiveLoop n (PostReceive s).1).1,
          (PostReceive s).2 ++ (postReceiveLoop n (PostReceive s).1).2) := rfl
    rw [hstep]
    refine ⟨ih1, ?_, ?_⟩
    · dsimp only
      rw [ih2, postReceive_recvCount]
      omega
    · intro h1 h2
      exact ih3 (nic_append_nodup_bound s.nic_outstanding s.next_wr_id
          WrKind.recv h1 h2).1
        (nic_append_nodup_bound s.nic_outstanding s.next_wr_id
          WrKind.recv h1 h2).2

theorem postReceiveLoop_actions (n : Nat) :
    ∀ s : ConnState,
      (postReceiveLoop n s).2.countP isPostRecvAction = n ∧
      ConnAction.setConnected ∉ (postReceiveLoop n s).2 := by
  induction n with
  | zero =>
    intro s
    exact ⟨rfl, by simp [postReceiveLoop]⟩
  | succ n ih =>
    intro s
    obtain ⟨ih1, ih2⟩ := ih (PostReceive s).1
    constructor
    · show ((PostReceive s).2 ++
          (postReceiveLoop n (PostReceive s).1).2).countP isPostRecvAction = n + 1
      rw [List.countP_append, ih1]
      simp [PostReceive, isPostRecvAction]
      omega
    · show ConnAction.setConnected ∉
        (PostReceive s).2 ++ (postReceiveLoop n (PostReceive s).1).2
      rw [List.mem_append]
      rintro (h1 | h2)
      · simp [PostReceive] at h1
      · exact ih2 h2

/-- The completion opcode has the RECV bit exactly when the posted kind it
    reports is a receive. -/
theorem hasRecvBit_iff_kind (op : WcOpcode) (knd : WrKind)
    (h : op.postedKind = some knd) :
    op.hasRecvBit = true ↔ knd = WrKind.recv := by
  cases op <;> simp [WcOpcode.postedKind, WcOpcode.hasRecvBit] at h ⊢ <;>
    simp [← h]

/-- Invariant of reachable connection states: while connected the NIC holds
    exactly kRecvBacklog outstanding receives, before MarkConnected it holds
    none, and the outstanding wr_ids are distinct and below the counter. -/
theorem reachableConn_inv :
    ∀ (k : Nat) (s : ConnState), ReachableConn k s →
      (s.is_connected = true → recvCount s = k) ∧
      (s.is_connected = false → recvCount s = 0) ∧
      (s.nic_outstanding.map Prod.fst).Nodup ∧
      (∀ e ∈ s.nic_outstanding, e.1 < s.next_wr_id) := by
  intro k s h
  induction h with
  | init =>
    refine ⟨?_, fun _ => rfl, ?_, ?_⟩
    · intro h2
      cases h2
    · simp [initConn]
    · intro e he
      cases he
  | markConnected s hr hconn ih =>
    obtain ⟨ih1, ih2, ih3, ih4⟩ := ih
    obtain ⟨hl1, hl2, hl3⟩ := postReceiveLoop_state k s
    obtain ⟨hn1, hn2⟩ := hl3 ih3 ih4
    refine ⟨?_, ?_, hn1, hn2⟩
    · intro _
      show recvCount (postReceiveLoop k s).1 = k
      rw [hl2, ih2 hconn]
      omega
    · intro h2
      cases h2
  | completion s wc knd hr hsucc hknd hmem ih =>
    obtain ⟨ih1, ih2, ih3, ih4⟩ := ih
    rcases hctx : lookupCtx s.wr_ctx wc.wr_id with _ | ctx
    · have heq : (HandleWorkCompletion s wc).1 = s := by
        simp [HandleWorkCompletion, hsucc, hctx]
      rw [heq]
      exact ⟨ih1, ih2, ih3, ih4⟩
    · have hcnt := removeOutstanding_countP s.nic_outstanding wc.wr_id knd ih3 hmem
      have hsub := removeOutstanding_sublist s.nic_outstanding wc.wr_id
      have hnd2 : ((removeOutstanding s.nic_outstanding wc.wr_id).map
          Prod.fst).Nodup := (hsub.map Prod.fst).nodup ih3
      have hbd2 : ∀ e ∈ removeOutstanding s.nic_outstanding wc.wr_id,
          e.1 < s.next_wr_id := fun e he => ih4 e (hsub.mem he)
      by_cases hbit : wc.opcode.hasRecvBit = true
      · have hknd2 : knd = WrKind.recv := (hasRecvBit_iff_kind wc.opcode knd hknd).mp hbit
        subst hknd2
        have heq : (HandleWorkCompletion s wc).1 =
            (PostReceive { s with
              wr_ctx := moveOutCtx s.wr_ctx wc.wr_id
              nic_outstanding := removeOutstanding s.nic_outstanding wc.wr_id }).1 := by
          simp [HandleWorkCompletion, hsucc, hctx, hbit]
        rw [heq]
        have hrc : recvCount (PostReceive { s with
            wr_ctx := moveOutCtx s.wr_ctx wc.wr_id
            nic_outstanding := removeOutstanding s.nic_outstanding wc.wr_id }).1 =
            recvCount s := by
          rw [postReceive_recvCount]
          show (removeOutstanding s.nic_outstanding wc.wr_id).countP
              (fun e => e.2 = WrKind.recv) + 1 =
            s.nic_outstanding.countP (fun e => e.2 = WrKind.recv)
          simpa using hcnt
        obtain ⟨hn1, hn2⟩ := nic_append_nodup_bound
          (removeOutstanding s.nic_outstanding wc.wr_id) s.next_wr_id
          WrKind.recv hnd2 hbd2
        refine ⟨?_, ?_, hn1, hn2⟩
        · intro hcm
          rw [hrc]
          exact ih1 hcm
        · intro hcm
          rw [hrc]
          exact ih2 hcm
      · have hknd2 : knd ≠ WrKind.recv := by
          intro hk
          exact hbit ((hasRecvBit_iff_kind wc.opcode knd hknd).mpr hk)
        have hrc : (removeOutstanding s.nic_outstanding wc.wr_id).countP
            (fun e => e.2 = WrKind.recv) =
            s.nic_outstanding.countP (fun e => e.2 = WrKind.recv) := by
          rw [if_neg hknd2] at hcnt
          simpa using hcnt
        have heq : (HandleWorkCompletion s wc).1 = { s with
            wr_ctx := moveOutCtx s.wr_ctx wc.wr_id
            nic_outstanding := removeOutstanding s.nic_outstanding wc.wr_id } := by
          rcases hop : wc.opcode with _ | _ | _ | _ <;>
            simp [HandleWorkCompletion, hsucc, hctx, hop, WcOpcode.hasRecvBit] <;>
            (exfalso; apply hbit; rw [hop]; rfl)
        rw [heq]
        refine ⟨?_, ?_, hnd2, hbd2⟩
        · intro hcm
          show (removeOutstanding s.nic_outstanding wc.wr_id).countP
              (fun e => e.2 = WrKind.recv) = k
          rw [hrc]
          exact ih1 hcm
        · intro hcm
          show (removeOutstanding s.nic_outstanding wc.wr_id).countP
              (fun e => e.2 = WrKind.recv) = 0
          rw [hrc]
          exact ih2 hcm
  | asyncSend s buf total_length hr ih =>
    obtain ⟨ih1, ih2, ih3, ih4⟩ := ih
    by_cases hc : s.is_connected = false
    · have heq : (AsyncSend s buf total_length).1 = s := by
        simp [AsyncSend, hc]
      rw [heq]
      exact ⟨ih1, ih2, ih3, ih4⟩
    · have hc2 : s.is_connected = true := by
        cases h2 : s.is_connected
        · exact absurd h2 hc
        · rfl
      have heq : (AsyncSend s buf total_length).1 = { s with
          next_wr_id := s.next_wr_id + 1
          wr_ctx := s.wr_ctx ++ [(s.next_wr_id, ⟨WrKind.send, some buf⟩)]
          nic_outstanding := s.nic_outstanding ++ [(s.next_wr_id, WrKind.send)] } := by
        simp [AsyncSend, hc2]
      rw [heq]
      obtain ⟨hn1, hn2⟩ := nic_append_nodup_bound s.nic_outstanding s.next_wr_id
        WrKind.send ih3 ih4
      have hrc : (s.nic_outstanding ++ [(s.next_wr_id, WrKind.send)]).countP
          (fun e => e.2 = WrKind.recv) =
          s.nic_outstanding.countP (fun e => e.2 = WrKind.recv) := by
        rw [List.countP_append]
        simp
      refine ⟨?_, ?_, hn1, hn2⟩
      · intro hcm
        show (s.nic_outstanding ++ [(s.next_wr_id, WrKind.send)]).countP
            (fun e => e.2 = WrKind.recv) = k
        rw [hrc]
        exact ih1 hcm
      · intro hcm
        show (s.nic_outstanding ++ [(s.next_wr_id, WrKind.send)]).countP
            (fun e => e.2 = WrKind.recv) = 0
        rw [hrc]
        exact ih2 hcm
  | asyncRead s offset length hr ih =>
    obtain ⟨ih1, ih2, ih3, ih4⟩ := ih
    obtain ⟨hn1, hn2⟩ := nic_append_nodup_bound s.nic_outstanding s.next_wr_id
      WrKind.read ih3 ih4
    have hrc : (s.nic_outstanding ++ [(s.next_wr_id, WrKind.read)]).countP
        (fun e => e.2 = WrKind.recv) =
        s.nic_outstanding.countP (fun e => e.2 = WrKind.recv) := by
      rw [List.countP_append]
      simp
    refine ⟨?_, ?_, hn1, hn2⟩
    · intro hcm
      show (s.nic_outstanding ++ [(s.next_wr_id, WrKind.read)]).countP
          (fun e => e.2 = WrKind.recv) = k
      rw [hrc]
      exact ih1 hcm
    · intro hcm
      show (s.nic_outstanding ++ [(s.next_wr_id, WrKind.read)]).countP
          (fun e => e.2 = WrKind.recv) = 0
      rw [hrc]
      exact ih2 hcm

/-- C6: while a connection is connected the number of outstanding posted
    receives is exactly kRecvBacklog: MarkConnected posts kRecvBacklog
    receives strictly before setting is_connected, and a completion with the
    RECV bit posts exactly one replacement receive before the on_recv
    handler runs, so every reachable connected state holds exactly
    kRecvBacklog outstanding receives. -/
theorem recv_backlog_invariant :
    (∀ (k : Nat) (s : ConnState), ReachableConn k s →
      s.is_connected = true → recvCount s = k) ∧
    (∀ (k : Nat) (s : ConnState),
      (MarkConnected k s).2 =
          (postReceiveLoop k s).2 ++ [ConnAction.setConnected] ∧
      (postReceiveLoop k s).2.countP isPostRecvAction = k ∧
      ConnAction.setConnected ∉ (postReceiveLoop k s).2) ∧
    (∀ (s : ConnState) (wc : WorkCompletion) (ctx : WorkRequestContext),
      wc.success = true → lookupCtx s.wr_ctx wc.wr_id = some ctx →
      wc.opcode.hasRecvBit = true →
      (HandleWorkCompletion s wc).2 =
        [ConnAction.insertCtx s.next_wr_id,
         ConnAction.ibvPostRecv s.next_wr_id,
         ConnAction.callbackOnRecv ctx.buf]) := by
  refine ⟨?_, ?_, ?_⟩
  · intro k s h hconn
    exact (reachableConn_inv k s h).1 hconn
  · intro k s
    exact ⟨rfl, (postReceiveLoop_actions k s).1, (postReceiveLoop_actions k s).2⟩
  · intro s wc ctx hsucc hctx hbit
    simp [HandleWorkCompletion, hsucc, hctx, hbit, PostReceive]

/-- Witness for recv_backlog_invariant: with kRecvBacklog 2, the connection
    reached by MarkConnected holds 2 outstanding receives, and completing
    wr_id 0 posts replacement wr_id 2 before delivering the buffer. -/
theorem recv_backlog_invariant_witness :
    recvCount (MarkConnected 2 initConn).1 = 2 ∧
    (HandleWorkCompletion (MarkConnected 2 initConn).1
        ⟨0, true, WcOpcode.wcRecv⟩).2 =
      [ConnAction.insertCtx 2, ConnAction.ibvPostRecv 2,
       ConnAction.callbackOnRecv (some 0)] := by
  constructor
  · exact recv_backlog_invariant.1 2 _
      (ReachableConn.markConnected _ ReachableConn.init rfl) rfl
  · have h := recv_backlog_invariant.2.2 (MarkConnected 2 initConn).1
      ⟨0, true, WcOpcode.wcRecv⟩ ⟨WrKind.recv, some 0⟩ rfl (by decide) rfl
    exact h.trans (by decide)

end Ario

namespace NexusDispatcher

/-- C3 counterexample: a Dispatch carrying a model_index that is not within
    the entrance table does not produce a DispatchReply: the table lookup
    with std::vector::at raises out_of_range before any reply can be built
    or sent. -/
theorem dispatch_unknown_model_index_throws :
    OnRecvDispatch ([] : List Unit) (fun _ _ => CtrlStatus.ctrlErr 1)
      ⟨0, 7, 0, ⟨0, 0⟩⟩ 11 22 33 = Except.error DispatchError.outOfRange := by
  rfl

/-- C3 amended: for a model_index within the entrance table, a DispatchReply
    is sent back over the connection exactly when the enqueue status is not
    CTRL_OK, and the sent reply carries the status, the model_index, and one
    query entry echoing query_id and the dispatcher_recv_ns /
    dispatcher_sched_ns timestamps; on CTRL_OK nothing is sent.  A
    model_index outside the table instead raises out_of_range. -/
theorem dispatch_reply_iff_enqueue_fails :
    ∀ {Entrance : Type} (table : List Entrance)
      (enqueue : Entrance → DispatchRequest → CtrlStatus)
      (request : DispatchRequest) (recv_ns sched_ns : Int) (gid : Nat)
      (entrance : Entrance),
      table.get? request.model_index = some entrance →
      (OnRecvDispatch table enqueue request recv_ns sched_ns gid =
        Except.ok
          (if enqueue entrance
                { request with clock := ⟨recv_ns, sched_ns⟩, global_id := gid } =
              CtrlStatus.ctrlOk then
            none
          else
            some
              { status :=
                  enqueue entrance
                    { request with clock := ⟨recv_ns, sched_ns⟩, global_id := gid },
                model_index := request.model_index,
                query_list := [⟨request.query_id, ⟨recv_ns, sched_ns⟩⟩] })) ∧
      ((∃ rep, OnRecvDispatch table enqueue request recv_ns sched_ns gid =
          Except.ok (some rep)) ↔
        enqueue entrance
            { request with clock := ⟨recv_ns, sched_ns⟩, global_id := gid } ≠
          CtrlStatus.ctrlOk) := by
  intro Entrance table enqueue request recv_ns sched_ns gid entrance hget
  rw [List.get?_eq_getElem?] at hget
  have hmain :
      OnRecvDispatch table enqueue request recv_ns sched_ns gid =
        Except.ok
          (if enqueue entrance
                { request with clock := ⟨recv_ns, sched_ns⟩, global_id := gid } =
              CtrlStatus.ctrlOk then
            none
          else
            some
              { status :=
                  enqueue entrance
                    { request with clock := ⟨recv_ns, sched_ns⟩, global_id := gid },
                model_index := request.model_index,
                query_list := [⟨request.query_id, ⟨recv_ns, sched_ns⟩⟩] }) := by
    by_cases hst :
        enqueue entrance
            { request with clock := ⟨recv_ns, sched_ns⟩, global_id := gid } =
          CtrlStatus.ctrlOk <;>
      simp [OnRecvDispatch, HandleDispatch, hget, hst]
  refine ⟨hmain, ?_⟩
  constructor
  · rintro ⟨rep, hrep⟩ hst
    rw [hmain] at hrep
    simp [hst] at hrep
  · intro hst
    refine
      ⟨{ status :=
            enqueue entrance
              { request with clock := ⟨recv_ns, sched_ns⟩, global_id := gid },
          model_index := request.model_index,
          query_list := [⟨request.query_id, ⟨recv_ns, sched_ns⟩⟩] }, ?_⟩
    rw [hmain]
    simp [hst]

/-- Witness for dispatch_reply_iff_enqueue_fails: with a one-entry table and
    an enqueue that fails with code 5, the reply carrying status, model
    index 0 and the echoed query is sent. -/
theorem dispatch_reply_iff_enqueue_fails_witness :
    OnRecvDispatch [()] (fun _ _ => CtrlStatus.ctrlErr 5)
      ⟨0, 9, 0, ⟨1, 2⟩⟩ 11 22 33 =
      Except.ok (some ⟨CtrlStatus.ctrlErr 5, 0, [⟨9, ⟨11, 22⟩⟩]⟩) := by
  have h :=
    (dispatch_reply_iff_enqueue_fails [()] (fun _ _ => CtrlStatus.ctrlErr 5)
      ⟨0, 9, 0, ⟨1, 2⟩⟩ 11 22 33 () rfl).1
  simpa using h

end NexusDispatcher

